import Mathlib

/-!
Verification of the data-shaping utilities of the BACPAC synthetic-data
analysis notebook
(HEAL-notebooks/combined_tutorials/BACPAC_Synthetic_Data_Analysis.ipynb).

The notebook defines three small pure helper functions over one column
each — age_group, find_participant and find_timepoint — and calls the
pandas library for cross-tabulation and outer merging.  This file embeds
those functions, together with the relevant pandas semantics
(str.rstrip, str.endswith, crosstab NaN-dropping, outer merge), as
executable Lean definitions and proves the spec's testable properties
about them.

Modelling conventions:
- a dataframe column is a Lean list; a column that can hold missing
  values (NaN produced by an outer merge) is a list of Option String,
  with none standing for a missing value;
- a Python function that can raise returns an Option: none models the
  raised exception (ValueError of min on an empty list, AttributeError
  of calling a string method on NaN).
-/

/-- Python str.endswith: the string s ends with the string suffix.
Used by find_timepoint in the notebook. -/
def pyEndsWith (s suffix : String) : Bool :=
  suffix.data.isSuffixOf s.data

/-- Python str.rstrip with an explicit character set: remove the longest
trailing run of characters of s that belong to the character set of
chars.  This is the library call made by find_participant in the
notebook (i.rstrip(endstr)). -/
def pyRstrip (s chars : String) : String :=
  String.mk ((s.data.reverse.dropWhile fun c => chars.data.contains c).reverse)

/-- The notebook's find_participant (notebook lines 179-184): for each
value of the submitter_id column of the table, strip the suffix tag with
str.rstrip and collect the results.  The submitter_id column is passed
as a list of strings. -/
def find_participant (submitterIds : List String) (endstr : String) : List String :=
  submitterIds.map fun i => pyRstrip i endstr

/-- The notebook's find_timepoint (notebook lines 191-198): for each
value of the visits.submitter_id column, append "Week 0" if the value
ends with "Week 0" and "Week 12" otherwise.  A missing value (NaN after
the outer merge) is a float, and calling .endswith on it raises
AttributeError; this is modelled by the none result. -/
def find_timepoint : List (Option String) → Option (List String)
  | [] => some []
  | none :: _ => none
  | some i :: rest =>
    (find_timepoint rest).map fun t =>
      (if pyEndsWith i "Week 0" then "Week 0" else "Week 12") :: t

/-- The notebook's age_group (notebook lines 117-127): compute the
minimum age, build the label of the low group from it, and label every
age at most 55 with that label and every other age with ">55 yr".
Python's min raises ValueError on an empty list, modelled by none. -/
def age_group (agelist : List Int) : Option (List String) :=
  match agelist.min? with
  | none => none
  | some min_age =>
    let grouplabel1 := toString min_age ++ "-55 yr"
    let grouplabel2 := ">55 yr"
    some (agelist.map fun i => if i ≤ 55 then grouplabel1 else grouplabel2)

/-- The pairs of values of the two columns handed to pd.crosstab, taken
rowwise; crosstab drops every row in which either column is missing, so
the surviving observations are the rows in which both cells are some. -/
def validPairs (rows : List (Option String × Option String)) : List (String × String) :=
  rows.filterMap fun r =>
    match r with
    | (some a, some b) => some (a, b)
    | _ => none

/-- Number of occurrences of an element in a list. -/
def countOcc {α : Type} [DecidableEq α] (l : List α) (x : α) : Nat :=
  (l.filter fun y => decide (y = x)).length

/-- One cell of pd.crosstab of the two columns (notebook lines 133-135):
the number of rows whose first column holds p.1 and whose second column
holds p.2, both non-missing. -/
def crosstab_cell (rows : List (Option String × Option String)) (p : String × String) : Nat :=
  countOcc rows (some p.1, some p.2)

/-- The index levels of the cross-tabulation: the distinct non-missing
values of the first column among rows kept by crosstab. -/
def rowLevels (rows : List (Option String × Option String)) : Finset String :=
  ((validPairs rows).map Prod.fst).toFinset

/-- The column levels of the cross-tabulation: the distinct non-missing
values of the second column among rows kept by crosstab. -/
def colLevels (rows : List (Option String × Option String)) : Finset String :=
  ((validPairs rows).map Prod.snd).toFinset

/-- The key column of a pandas outer merge on string identifiers
(notebook lines 187-188 and 271-272): every left key is paired with each
matching right key, or with none when nothing matches; every right key
that matches no left key is appended with none on the left. -/
def outerJoinKeys (left right : List String) : List (Option String × Option String) :=
  (left.flatMap fun a =>
    let ms := right.filter fun b => b == a
    if ms.isEmpty then [(some a, none)] else ms.map fun b => (some a, some b))
  ++ ((right.filter fun b => !(left.any fun a => a == b)).map fun b => (none, some b))

/-- The identifier carried by one row of the merged key columns: the
left key when present, otherwise the right key. -/
def joinKey : Option String × Option String → Option String
  | (some a, _) => some a
  | (none, some b) => some b
  | (none, none) => none

/-- The merged dataframe of the notebook, restricted to the columns the
derivation cells read and write: age_in_years and visits.submitter_id
are read, the derived columns are written (none before derivation). -/
structure CombinedFrame where
  age_in_years : List Int
  visits_submitter_id : List (Option String)
  age_group_col : Option (List String)
  time_point_col : Option (List String)

/-- The two derivation cells of the notebook: compute the age_group
column from age_in_years and the time_point column from
visits.submitter_id, leaving every other column untouched. -/
def addDerivedColumns (df : CombinedFrame) : CombinedFrame :=
  { df with
    age_group_col := age_group df.age_in_years
    time_point_col := find_timepoint df.visits_submitter_id }

theorem head?_dropWhile_not {α : Type} (p : α → Bool) :
    ∀ l : List α, ((l.dropWhile p).head?.all fun c => !p c) = true
  | [] => rfl
  | x :: xs => by
    rw [List.dropWhile_cons]
    by_cases h : p x = true
    · simpa [h] using head?_dropWhile_not p xs
    · simp [h]

theorem pyRstrip_eq_self (key endstr : String)
    (h : (key.data.getLast?.all fun c => !(endstr.data.contains c)) = true) :
    pyRstrip key endstr = key := by
  have hd : (pyRstrip key endstr).data = key.data := by
    show (key.data.reverse.dropWhile fun c => endstr.data.contains c).reverse = key.data
    rw [← List.head?_reverse] at h
    cases hr : key.data.reverse with
    | nil =>
      have hk : key.data = [] := by simpa using congrArg List.reverse hr
      rw [hk]
      rfl
    | cons c cs =>
      rw [hr] at h
      rw [List.dropWhile_cons, if_neg ?_]
      · have hk : key.data = (c :: cs).reverse := by simpa using congrArg List.reverse hr
        rw [hk]
      · simpa using h
  exact congrArg String.mk hd

/-- C1: find_participant applied to a key column holding the single key
"P001_sc", with suffix string "_sc", recovers the identifier "P001". -/
theorem find_participant_example : find_participant ["P001_sc"] "_sc" = ["P001"] := by decide

/-- C2 counterexample: the key "P001s" does not end with the suffix
"_sc", yet find_participant does not return it unchanged (str.rstrip
strips the trailing character s, which belongs to the character set of
the suffix), so the claim that every key not ending with the suffix is
returned unchanged is false. -/
theorem find_participant_counterexample :
    pyEndsWith "P001s" "_sc" = false ∧ find_participant ["P001s"] "_sc" ≠ ["P001s"] := by decide

/-- C2 amended: a key is returned unchanged exactly when str.rstrip has
nothing to strip, i.e. when the key is empty or its last character does
not belong to the character set of the suffix string; for every column
all of whose keys satisfy that condition, find_participant returns the
column unchanged. -/
theorem find_participant_unchanged (ids : List String) (endstr : String)
    (h : ∀ key ∈ ids, (key.data.getLast?.all fun c => !(endstr.data.contains c)) = true) :
    find_participant ids endstr = ids := by
  induction ids with
  | nil => rfl
  | cons a t ih =>
    have ha := pyRstrip_eq_self a endstr (h a (List.mem_cons_self a t))
    have ht := ih fun key hk => h key (List.mem_cons_of_mem a hk)
    show pyRstrip a endstr :: find_participant t endstr = a :: t
    rw [ha, ht]

/-- C2 witness: a concrete key whose last character is outside the
suffix character set is returned unchanged. -/
theorem find_participant_unchanged_witness : find_participant ["P001"] "_sc" = ["P001"] :=
  find_participant_unchanged ["P001"] "_sc" (by decide)

/-- C3: find_participant implements Python str.rstrip semantics: the
result is a prefix of the key obtained by removing the longest trailing
run of characters drawn from the suffix's character set (every removed
character is in that set, and the result's last character, if any, is
not), and in particular the key "P001s", which does not end with the
suffix "_sc", is still shortened to "P001". -/
theorem find_participant_rstrip_semantics :
    (∀ key endstr : String,
      ∃ t : List Char,
        key.data = (pyRstrip key endstr).data ++ t ∧
        (t.all fun c => endstr.data.contains c) = true ∧
        ((pyRstrip key endstr).data.getLast?.all fun c => !(endstr.data.contains c)) = true) ∧
    find_participant ["P001s"] "_sc" = ["P001"] := by
  refine ⟨fun key endstr => ?_, by decide⟩
  refine ⟨(key.data.reverse.takeWhile fun c => endstr.data.contains c).reverse, ?_, ?_, ?_⟩
  · conv_lhs =>
      rw [← List.reverse_reverse key.data,
        ← List.takeWhile_append_dropWhile (p := fun c => endstr.data.contains c)
          (l := key.data.reverse)]
    rw [List.reverse_append]
    rfl
  · rw [List.all_eq_true]
    intro c hc
    exact List.mem_takeWhile_imp (List.mem_reverse.mp hc)
  · rw [show (pyRstrip key endstr).data
        = (key.data.reverse.dropWhile fun c => endstr.data.contains c).reverse from rfl,
      List.getLast?_reverse]
    exact head?_dropWhile_not _ key.data.reverse

/-- C4: age_group applied to the ages 40, 55, 56, 70 (threshold 55)
produces the labels of the spec's example. -/
theorem age_group_example :
    age_group [40, 55, 56, 70] = some ["40-55 yr", "40-55 yr", ">55 yr", ">55 yr"] := by decide

/-- C5: age_group raises on the empty list (min of an empty list), and
on any list whose minimum is m it returns, without error, a list of the
same length labelling every age at most 55 with the string of m followed
by "-55 yr" and every other age with ">55 yr"; the low-group label thus
varies with the minimum of the input. -/
theorem age_group_spec :
    age_group ([] : List Int) = none ∧
    ∀ (agelist : List Int) (m : Int), agelist.min? = some m →
      ∃ out : List String, age_group agelist = some out ∧
        out.length = agelist.length ∧
        ∀ i : Nat, out[i]? = (agelist[i]?).map fun a =>
          if a ≤ 55 then toString m ++ "-55 yr" else ">55 yr" := by
  refine ⟨rfl, fun agelist m hm => ?_⟩
  refine ⟨agelist.map fun a => if a ≤ 55 then toString m ++ "-55 yr" else ">55 yr", ?_, ?_, ?_⟩
  · simp only [age_group, hm]
  · exact List.length_map _ _
  · intro i
    exact List.getElem?_map _ _ _

/-- C5 witness: at the concrete ages 40 and 56 the spec theorem pins the
output down to the two expected labels. -/
theorem age_group_spec_witness : age_group [40, 56] = some ["40-55 yr", ">55 yr"] := by
  obtain ⟨out, h1, h2, h3⟩ := age_group_spec.2 [40, 56] 40 (by decide)
  have e0 : out[0]? = some "40-55 yr" := by rw [h3 0]; decide
  have e1 : out[1]? = some ">55 yr" := by rw [h3 1]; decide
  have ha : out = ["40-55 yr", ">55 yr"] := by
    apply List.ext_getElem?
    intro i
    match i with
    | 0 => rw [e0]; rfl
    | 1 => rw [e1]; rfl
    | n + 2 =>
      rw [List.getElem?_eq_none (by simp only [h2, List.length_cons, List.length_nil]; omega),
        List.getElem?_eq_none (by simp only [List.length_cons, List.length_nil]; omega)]
  rw [h1, ha]

/-- C6 counterexample: on a column holding a single missing value (the
null a pandas outer join produces), find_timepoint does not return the
default bucket "Week 12"; the .endswith call on the missing value raises
AttributeError, modelled by the none result. -/
theorem find_timepoint_null_counterexample :
    find_timepoint [none] = none ∧ find_timepoint [none] ≠ some ["Week 12"] := by decide

/-- C6 amended: on a column of non-missing string values find_timepoint
never raises, and when no value ends with "Week 0" every value, however
unrecognized, is mapped to the default bucket "Week 12"; a missing value
(such as a null produced by the preceding outer join) instead raises. -/
theorem find_timepoint_strings_default :
    ∀ col : List String,
      (∃ out : List String, find_timepoint (col.map some) = some out) ∧
      ((∀ s ∈ col, pyEndsWith s "Week 0" = false) →
        find_timepoint (col.map some) = some (List.replicate col.length "Week 12")) := by
  intro col
  induction col with
  | nil => exact ⟨⟨[], rfl⟩, fun _ => rfl⟩
  | cons s rest ih =>
    obtain ⟨out, ho⟩ := ih.1
    constructor
    · refine ⟨(if pyEndsWith s "Week 0" then "Week 0" else "Week 12") :: out, ?_⟩
      show ((find_timepoint (rest.map some)).map fun t =>
        (if pyEndsWith s "Week 0" then "Week 0" else "Week 12") :: t) = _
      rw [ho]
      rfl
    · intro hall
      have hr := ih.2 fun x hx => hall x (List.mem_cons_of_mem s hx)
      have hs := hall s (List.mem_cons_self s rest)
      show ((find_timepoint (rest.map some)).map fun t =>
        (if pyEndsWith s "Week 0" then "Week 0" else "Week 12") :: t) = _
      rw [hr, hs]
      simp [List.replicate_succ]

/-- C6 witness: a concrete unrecognized visit label is mapped, without
error, to the default bucket. -/
theorem find_timepoint_strings_default_witness :
    find_timepoint [some "Visit Week 4"] = some ["Week 12"] :=
  (find_timepoint_strings_default ["Visit Week 4"]).2 (by decide)

/-- C9: find_timepoint is idempotent on its own label set: a column
whose values are all already "Week 0" or "Week 12" is returned
unchanged. -/
theorem find_timepoint_idempotent (l : List String)
    (h : ∀ s ∈ l, s = "Week 0" ∨ s = "Week 12") :
    find_timepoint (l.map some) = some l := by
  induction l with
  | nil => rfl
  | cons s rest ih =>
    have hr := ih fun x hx => h x (List.mem_cons_of_mem s hx)
    show ((find_timepoint (rest.map some)).map fun t =>
      (if pyEndsWith s "Week 0" then "Week 0" else "Week 12") :: t) = some (s :: rest)
    rw [hr]
    rcases h s (List.mem_cons_self s rest) with hs | hs
    · subst hs
      rw [(by decide : pyEndsWith "Week 0" "Week 0" = true)]
      rfl
    · subst hs
      rw [(by decide : pyEndsWith "Week 12" "Week 0" = false)]
      rfl

/-- C9 witness: the two labels of the label set are returned unchanged. -/
theorem find_timepoint_idempotent_witness :
    find_timepoint [some "Week 0", some "Week 12"] = some ["Week 0", "Week 12"] :=
  find_timepoint_idempotent ["Week 0", "Week 12"] (by decide)

theorem countOcc_cons {α : Type} [DecidableEq α] (a x : α) (l : List α) :
    countOcc (a :: l) x = countOcc l x + if a = x then 1 else 0 := by
  simp only [countOcc, List.filter_cons]
  by_cases h : a = x
  · simp [h]
  · simp [h]

theorem countOcc_eq_zero_of_not_mem {α : Type} [DecidableEq α] {l : List α} {x : α}
    (h : x ∉ l) : countOcc l x = 0 := by
  simp only [countOcc, List.length_eq_zero]
  rw [List.filter_eq_nil_iff]
  intro a ha
  simp only [decide_eq_true_eq]
  intro e
  exact h (e ▸ ha)

theorem sum_countOcc {α : Type} [DecidableEq α] (l : List α) :
    ∑ x ∈ l.toFinset, countOcc l x = l.length := by
  induction l with
  | nil => rfl
  | cons a l ih =>
    rw [List.toFinset_cons]
    rw [Finset.sum_congr rfl fun x _ => countOcc_cons a x l]
    rw [Finset.sum_add_distrib]
    have h2 : (∑ x ∈ insert a l.toFinset, if a = x then 1 else 0) = 1 := by
      rw [Finset.sum_ite_eq]
      simp
    have h1 : ∑ x ∈ insert a l.toFinset, countOcc l x = l.length := by
      by_cases hm : a ∈ l.toFinset
      · rw [Finset.insert_eq_self.mpr hm]
        exact ih
      · rw [Finset.sum_insert hm,
          countOcc_eq_zero_of_not_mem fun hc => hm (List.mem_toFinset.mpr hc)]
        simpa using ih
    rw [h1, h2]
    simp

theorem countOcc_validPairs (rows : List (Option String × Option String)) (a b : String) :
    countOcc (validPairs rows) (a, b) = countOcc rows (some a, some b) := by
  induction rows with
  | nil => rfl
  | cons r rest ih =>
    rcases r with ⟨_ | x, _ | y⟩
    · show countOcc (validPairs rest) (a, b) = countOcc ((none, none) :: rest) (some a, some b)
      rw [countOcc_cons]
      simp [ih]
    · show countOcc (validPairs rest) (a, b)
        = countOcc ((none, some y) :: rest) (some a, some b)
      rw [countOcc_cons]
      simp [ih]
    · show countOcc (validPairs rest) (a, b)
        = countOcc ((some x, none) :: rest) (some a, some b)
      rw [countOcc_cons]
      simp [ih]
    · show countOcc ((x, y) :: validPairs rest) (a, b)
        = countOcc ((some x, some y) :: rest) (some a, some b)
      rw [countOcc_cons, countOcc_cons, ih]
      by_cases hx : (x, y) = (a, b)
      · have hx1 : x = a := congrArg Prod.fst hx
        have hy1 : y = b := congrArg Prod.snd hx
        subst hx1
        subst hy1
        simp
      · have hx2 : (some x, some y) ≠ ((some a, some b) : Option String × Option String) := by
          intro hc
          apply hx
          have h1 : some x = some a := congrArg Prod.fst hc
          have h2 : some y = some b := congrArg Prod.snd hc
          rw [Option.some.inj h1, Option.some.inj h2]
        simp [hx, hx2]

theorem length_validPairs (rows : List (Option String × Option String)) :
    (validPairs rows).length = (rows.filter fun r => r.1.isSome && r.2.isSome).length := by
  induction rows with
  | nil => rfl
  | cons r rest ih =>
    rcases r with ⟨_ | x, _ | y⟩ <;>
      simpa [validPairs, List.filter_cons] using ih

theorem validPairs_toFinset_subset (rows : List (Option String × Option String)) :
    (validPairs rows).toFinset ⊆ rowLevels rows ×ˢ colLevels rows := by
  intro p hp
  rw [List.mem_toFinset] at hp
  rw [Finset.mem_product]
  exact ⟨List.mem_toFinset.mpr (List.mem_map_of_mem Prod.fst hp),
    List.mem_toFinset.mpr (List.mem_map_of_mem Prod.snd hp)⟩

/-- C7: cross-tabulation margin invariant: for any two columns handed to
pd.crosstab (zipped rowwise, with none for a missing cell), the sum of
all cells of the resulting contingency table equals the number of rows
of the source table in which both columns are non-missing. -/
theorem crosstab_margin_invariant (rows : List (Option String × Option String)) :
    ∑ p ∈ rowLevels rows ×ˢ colLevels rows, crosstab_cell rows p
      = (rows.filter fun r => r.1.isSome && r.2.isSome).length := by
  have hcell : ∀ p : String × String, crosstab_cell rows p = countOcc (validPairs rows) p :=
    fun p => (countOcc_validPairs rows p.1 p.2).symm
  rw [Finset.sum_congr rfl fun p _ => hcell p]
  rw [← Finset.sum_subset (validPairs_toFinset_subset rows) ?_]
  · rw [sum_countOcc, length_validPairs]
  · intro p _ hp
    exact countOcc_eq_zero_of_not_mem fun hm => hp (List.mem_toFinset.mpr hm)

/-- C8: outer-join completeness: every identifier present in the key
column of either input table appears, at least once, as the key of some
row of the outer merge. -/
theorem outer_join_complete (left right : List String) (k : String)
    (h : k ∈ left ∨ k ∈ right) :
    ∃ row ∈ outerJoinKeys left right, joinKey row = some k := by
  by_cases hkl : k ∈ left
  · by_cases hms : (right.filter fun b => b == k).isEmpty
    · refine ⟨(some k, none), ?_, rfl⟩
      apply List.mem_append_left
      rw [List.mem_flatMap]
      refine ⟨k, hkl, ?_⟩
      show (some k, none) ∈
        (if (right.filter fun b => b == k).isEmpty then [((some k : Option String), none)]
          else (right.filter fun b => b == k).map fun b => (some k, some b))
      rw [if_pos hms]
      exact List.mem_singleton.mpr rfl
    · obtain ⟨b, hb⟩ : ∃ b, b ∈ right.filter fun x => x == k := by
        rcases hne : right.filter fun x => x == k with _ | ⟨b, t⟩
        · exact absurd (by rw [hne]; rfl) hms
        · exact ⟨b, List.mem_cons_self b t⟩
      refine ⟨(some k, some b), ?_, rfl⟩
      apply List.mem_append_left
      rw [List.mem_flatMap]
      refine ⟨k, hkl, ?_⟩
      show (some k, some b) ∈
        (if (right.filter fun x => x == k).isEmpty then [((some k : Option String), none)]
          else (right.filter fun x => x == k).map fun x => (some k, some x))
      rw [if_neg hms]
      exact List.mem_map_of_mem _ hb
  · have hkr : k ∈ right := h.resolve_left hkl
    refine ⟨(none, some k), ?_, rfl⟩
    apply List.mem_append_right
    apply List.mem_map_of_mem
    rw [List.mem_filter]
    refine ⟨hkr, ?_⟩
    rw [Bool.not_eq_true', List.any_eq_false]
    intro a ha
    simp only [beq_iff_eq]
    intro e
    exact hkl (e ▸ ha)

/-- C8 witness: an identifier present only in the right table appears in
the merged key rows. -/
theorem outer_join_complete_witness :
    ∃ row ∈ outerJoinKeys ["P001"] ["P002"], joinKey row = some "P002" :=
  outer_join_complete ["P001"] ["P002"] "P002" (Or.inr (by decide))

/-- C10: the derivation utilities are deterministic pure functions of
one column: on equal merged frames the derived age_group and time_point
columns are equal, and the derivation cell leaves both input columns of
the frame unmodified. -/
theorem derivations_deterministic_pure (df₁ df₂ : CombinedFrame) (h : df₁ = df₂) :
    age_group df₁.age_in_years = age_group df₂.age_in_years ∧
    find_timepoint df₁.visits_submitter_id = find_timepoint df₂.visits_submitter_id ∧
    (addDerivedColumns df₁).age_in_years = df₁.age_in_years ∧
    (addDerivedColumns df₁).visits_submitter_id = df₁.visits_submitter_id := by
  subst h
  exact ⟨rfl, rfl, rfl, rfl⟩

/-- C10 witness: determinism and non-mutation at a concrete frame. -/
theorem derivations_deterministic_pure_witness :
    age_group [40] = age_group [40] ∧
    find_timepoint [some "Week 0"] = find_timepoint [some "Week 0"] ∧
    (addDerivedColumns (CombinedFrame.mk [40] [some "Week 0"] none none)).age_in_years = [40] ∧
    (addDerivedColumns (CombinedFrame.mk [40] [some "Week 0"] none none)).visits_submitter_id
      = [some "Week 0"] :=
  derivations_deterministic_pure (CombinedFrame.mk [40] [some "Week 0"] none none) _ rfl
